import Mathlib

/-!
Shallow embedding of the m0_clipper audio-highlight pipeline
(src/highlighter/analyzer.py and src/highlighter/processor.py),
with theorems checking the natural-language specification against it.

Decibel values and timestamps are modelled as rationals; the source's
floating-point values are used only for comparisons, sums and divisions
in the claims at stake, so the rational model is faithful there.
Python's int() truncation is `pyInt` below.
-/

namespace Highlighter

/-- Python int() on a rational: truncation toward zero. -/
def pyInt (q : ℚ) : ℤ := if 0 ≤ q then ⌊q⌋ else ⌈q⌉

/-- Python max() over a list, with the -60.0 default the source uses for an
empty list (analyzer.py line 214: max(decibel_data) if decibel_data else -60.0). -/
def pyListMax : List ℚ → ℚ
  | [] => -60
  | x :: xs => xs.foldl max x

/-- Python sum(l)/len(l) with the -60.0 default for an empty list
(analyzer.py line 215). -/
def pyListAvg (l : List ℚ) : ℚ :=
  if l.isEmpty then -60 else l.sum / l.length

/-- String of a two-digit zero-padded number, as in Python's timedelta rendering. -/
def pad2 (n : ℕ) : String := if n < 10 then "0" ++ toString n else toString n

/-- Python str(datetime.timedelta(seconds=n)) for integer n
(analyzer.py lines 189, 484): days prefix when nonzero, then H:MM:SS. -/
def timedeltaStr (n : ℤ) : String :=
  let days := n.fdiv 86400
  let rem := (n.emod 86400).toNat
  let h := rem / 3600
  let m := rem % 3600 / 60
  let s := rem % 60
  let hms := toString h ++ ":" ++ pad2 m ++ ":" ++ pad2 s
  if days = 0 then hms
  else toString days ++ (if days = 1 ∨ days = -1 then " day, " else " days, ") ++ hms

/-- common.HighlightedMoment, as constructed by _add_highlight
(analyzer.py lines 186-192 and 483-485): a position string
str(timedelta(seconds=position)) and the triggering decibel value. -/
structure HighlightedMoment where
  position : String
  decibel : ℚ
deriving DecidableEq

/-- One entry of the rolling window, the dict built at analyzer.py
lines 218-222 and 551-555. -/
structure WindowEntry where
  position : ℚ
  max_db : ℚ
  avg_db : ℚ
deriving DecidableEq

/-- Python dict assignment d[k] = v on an insertion-ordered association list:
replace in place when the key exists, append otherwise. -/
def dictUpdate {κ α : Type} [DecidableEq κ] (d : List (κ × α)) (k : κ) (v : α) :
    List (κ × α) :=
  if d.any fun e => e.1 = k then d.map fun e => if e.1 = k then (k, v) else e
  else d ++ [(k, v)]

/-- State threaded through one detection pass: the rolling window and the
insertion-ordered _captured_result dict (position key, highlight value). -/
structure DetectState where
  rolling_window : List WindowEntry
  captured : List (ℤ × HighlightedMoment)
deriving DecidableEq

/-- Minimum gap between clips, min_gap = max(30, start_point + end_point)
(analyzer.py lines 179 and 475). -/
def minGap (start_point end_point : ℤ) : ℤ := max 30 (start_point + end_point)

/-- StreamingAudioAnalysis._already_captured (analyzer.py lines 177-184),
identical to AudioAnalysis._already_captured (lines 470-481): true when some
existing captured position is closer than min_gap. -/
def already_captured (start_point end_point : ℤ)
    (captured : List (ℤ × HighlightedMoment)) (pos : ℤ) : Bool :=
  captured.any fun e => |e.1 - pos| < minGap start_point end_point

/-- StreamingAudioAnalysis._add_highlight (analyzer.py lines 186-192) and
AudioAnalysis._add_highlight (lines 483-485): _captured_result[position] = highlight. -/
def add_highlight (captured : List (ℤ × HighlightedMoment)) (position : ℤ)
    (decibel : ℚ) : List (ℤ × HighlightedMoment) :=
  dictUpdate captured position ⟨timedeltaStr position, decibel⟩

/-- Rolling-window update (analyzer.py lines 218-225 and 551-559): append the
new entry, then pop the front if the size exceeds rolling_window_size = 5. -/
def pushWindow (w : List WindowEntry) (e : WindowEntry) : List WindowEntry :=
  let w1 := w ++ [e]
  if 5 < w1.length then w1.drop 1 else w1

/-- Number of window entries at or above the threshold, the sustained_count of
analyzer.py lines 231 and 565. -/
def sustainedCount (thr : ℚ) (w : List WindowEntry) : ℕ :=
  (w.filter fun e => thr ≤ e.max_db).length

/-- Rolling mean of avg_db over the window (analyzer.py lines 247 and 579). -/
def rollingAvg (w : List WindowEntry) : ℚ :=
  (w.map WindowEntry.avg_db).sum / (w.map WindowEntry.avg_db).length

/-- The three classification tiers named by the log messages at analyzer.py
lines 239, 244, 251 (and 571, 575, 582): sustained, spike, dynamic. -/
inductive Tier where
  | sustained
  | spike
  | dynamic
deriving DecidableEq

/-- Tier decision for a sample that passed the threshold and gap checks, in
the branch order of analyzer.py lines 235-251: sustained first
(sustained_count >= 3), else spike (max >= threshold + 3), else dynamic
(window length >= 3 and max >= rolling average + 6), else none. -/
def classify (thr : ℚ) (w : List WindowEntry) (max_decibel : ℚ) : Option Tier :=
  if 3 ≤ sustainedCount thr w then some .sustained
  else if thr + 3 ≤ max_decibel then some .spike
  else if 3 ≤ w.length then
    if rollingAvg w + 6 ≤ max_decibel then some .dynamic else none
  else none

/-- One loop iteration of
StreamingAudioAnalysis.streaming_crest_ceiling_algorithm
(analyzer.py lines 210-254): skip empty decibel data, push the window entry,
then — when max_decibel >= threshold and the position is not already
captured — run the sustained / spike / dynamic elif-chain, each branch
calling _add_highlight(int(position), max_decibel). -/
def streamingStep (thr : ℚ) (start_point end_point : ℤ) (st : DetectState)
    (sample : List ℚ × ℚ) : DetectState :=
  if sample.1.isEmpty then st
  else
    let max_decibel := pyListMax sample.1
    let avg_decibel := pyListAvg sample.1
    let w := pushWindow st.rolling_window ⟨sample.2, max_decibel, avg_decibel⟩
    let captured :=
      if thr ≤ max_decibel then
        if already_captured start_point end_point st.captured (pyInt sample.2) then
          st.captured
        else
          if 3 ≤ sustainedCount thr w then
            add_highlight st.captured (pyInt sample.2) max_decibel
          else if thr + 3 ≤ max_decibel then
            add_highlight st.captured (pyInt sample.2) max_decibel
          else if 3 ≤ w.length then
            if rollingAvg w + 6 ≤ max_decibel then
              add_highlight st.captured (pyInt sample.2) max_decibel
            else st.captured
          else st.captured
      else st.captured
    ⟨w, captured⟩

/-- One loop iteration of AudioAnalysis.crest_ceiling_algorithm (analyzer.py
lines 543-586): same capture logic as the streaming step, but the legacy loop
has no empty-data skip (its iterator always yields 1000-segment lists). -/
def crestStep (thr : ℚ) (start_point end_point : ℤ) (st : DetectState)
    (sample : List ℚ × ℚ) : DetectState :=
  let max_decibel := pyListMax sample.1
  let avg_decibel := pyListAvg sample.1
  let w := pushWindow st.rolling_window ⟨sample.2, max_decibel, avg_decibel⟩
  let captured :=
    if thr ≤ max_decibel then
      if already_captured start_point end_point st.captured (pyInt sample.2) then
        st.captured
      else
        if 3 ≤ sustainedCount thr w then
          add_highlight st.captured (pyInt sample.2) max_decibel
        else if thr + 3 ≤ max_decibel then
          add_highlight st.captured (pyInt sample.2) max_decibel
        else if 3 ≤ w.length then
          if rollingAvg w + 6 ≤ max_decibel then
            add_highlight st.captured (pyInt sample.2) max_decibel
          else st.captured
        else st.captured
    else st.captured
  ⟨w, captured⟩

/-- StreamingAudioAnalysis.streaming_crest_ceiling_algorithm (analyzer.py
lines 194-270) as a fold over the loudness samples yielded by
decibel_iter, starting from an empty window and empty _captured_result. -/
def streaming_crest_ceiling_algorithm (thr : ℚ) (start_point end_point : ℤ)
    (samples : List (List ℚ × ℚ)) : DetectState :=
  samples.foldl (streamingStep thr start_point end_point) ⟨[], []⟩

/-- AudioAnalysis.crest_ceiling_algorithm (analyzer.py lines 523-591) as a
fold over the loudness samples, starting from empty state. -/
def crest_ceiling_algorithm (thr : ℚ) (start_point end_point : ℤ)
    (samples : List (List ℚ × ℚ)) : DetectState :=
  samples.foldl (crestStep thr start_point end_point) ⟨[], []⟩

/-- Pairwise gap property over the captured dict: any two entries with
distinct position keys are at least g seconds apart. -/
def GapOK (g : ℤ) (captured : List (ℤ × HighlightedMoment)) : Prop :=
  ∀ a ∈ captured, ∀ b ∈ captured, a.1 ≠ b.1 → g ≤ |a.1 - b.1|

theorem already_captured_eq_false {start_point end_point : ℤ}
    {captured : List (ℤ × HighlightedMoment)} {pos : ℤ}
    (h : already_captured start_point end_point captured pos = false) :
    ∀ e ∈ captured, minGap start_point end_point ≤ |e.1 - pos| := by
  intro e he
  unfold already_captured at h
  rw [List.any_eq_false] at h
  have := h e he
  simp only [decide_eq_true_eq, not_lt] at this
  exact this

theorem gapOK_add_highlight {g : ℤ} {captured : List (ℤ × HighlightedMoment)}
    {pos : ℤ} {db : ℚ} (hg : 0 < g)
    (hcap : GapOK g captured)
    (hfar : ∀ e ∈ captured, g ≤ |e.1 - pos|) :
    GapOK g (add_highlight captured pos db) := by
  have hnotin : ∀ e ∈ captured, e.1 ≠ pos := by
    intro e he heq
    have := hfar e he
    rw [heq] at this
    simp at this
    omega
  have hany : (captured.any fun e => e.1 = pos) = false := by
    simp only [List.any_eq_false]
    intro e he
    simpa using hnotin e he
  unfold add_highlight dictUpdate
  rw [hany]
  simp only [Bool.false_eq_true, if_false]
  intro a ha b hb hne
  rcases List.mem_append.mp ha with ha' | ha' <;>
    rcases List.mem_append.mp hb with hb' | hb'
  · exact hcap a ha' b hb' hne
  · have hb1 : b.1 = pos := by
      simp only [List.mem_singleton] at hb'
      rw [hb']
    rw [hb1]
    exact hfar a ha'
  · have ha1 : a.1 = pos := by
      simp only [List.mem_singleton] at ha'
      rw [ha']
    rw [ha1, abs_sub_comm]
    exact hfar b hb'
  · simp only [List.mem_singleton] at ha' hb'
    rw [ha', hb'] at hne
    exact absurd rfl hne

theorem gapOK_streamingStep (thr : ℚ) (start_point end_point : ℤ)
    (st : DetectState) (sample : List ℚ × ℚ)
    (h : GapOK (minGap start_point end_point) st.captured) :
    GapOK (minGap start_point end_point)
      (streamingStep thr start_point end_point st sample).captured := by
  have hgpos : 0 < minGap start_point end_point := by
    unfold minGap; omega
  unfold streamingStep
  split
  · exact h
  · simp only
    split
    · split
      · exact h
      · rename_i hthr hnc
        have hfar : ∀ e ∈ st.captured,
            minGap start_point end_point ≤ |e.1 - pyInt sample.2| :=
          already_captured_eq_false (by simpa using hnc)
        split
        · exact gapOK_add_highlight hgpos h hfar
        · split
          · exact gapOK_add_highlight hgpos h hfar
          · split
            · split
              · exact gapOK_add_highlight hgpos h hfar
              · exact h
            · exact h
    · exact h

theorem gapOK_crestStep (thr : ℚ) (start_point end_point : ℤ)
    (st : DetectState) (sample : List ℚ × ℚ)
    (h : GapOK (minGap start_point end_point) st.captured) :
    GapOK (minGap start_point end_point)
      (crestStep thr start_point end_point st sample).captured := by
  have hgpos : 0 < minGap start_point end_point := by
    unfold minGap; omega
  unfold crestStep
  simp only
  split
  · split
    · exact h
    · rename_i hthr hnc
      have hfar : ∀ e ∈ st.captured,
          minGap start_point end_point ≤ |e.1 - pyInt sample.2| :=
        already_captured_eq_false (by simpa using hnc)
      split
      · exact gapOK_add_highlight hgpos h hfar
      · split
        · exact gapOK_add_highlight hgpos h hfar
        · split
          · split
            · exact gapOK_add_highlight hgpos h hfar
            · exact h
          · exact h
  · exact h

theorem gapOK_foldl_streaming (thr : ℚ) (start_point end_point : ℤ)
    (samples : List (List ℚ × ℚ)) (st : DetectState)
    (h : GapOK (minGap start_point end_point) st.captured) :
    GapOK (minGap start_point end_point)
      (samples.foldl (streamingStep thr start_point end_point) st).captured := by
  induction samples generalizing st with
  | nil => exact h
  | cons s rest ih =>
    exact ih _ (gapOK_streamingStep thr start_point end_point st s h)

theorem gapOK_foldl_crest (thr : ℚ) (start_point end_point : ℤ)
    (samples : List (List ℚ × ℚ)) (st : DetectState)
    (h : GapOK (minGap start_point end_point) st.captured) :
    GapOK (minGap start_point end_point)
      (samples.foldl (crestStep thr start_point end_point) st).captured := by
  induction samples generalizing st with
  | nil => exact h
  | cons s rest ih =>
    exact ih _ (gapOK_crestStep thr start_point end_point st s h)

/-- C1. Gap invariant: for every loudness-sample stream, threshold and
padding configuration, after the detection pass — streaming or legacy —
completes, every pair of distinct captured highlight positions a, b
satisfies |a - b| >= max(30, start_point + end_point). The proof threads
the invariant through every step, which is exactly the fact that each
newly captured position participates in the gap check for all later
candidates. -/
theorem gap_invariant (thr : ℚ) (start_point end_point : ℤ)
    (samples : List (List ℚ × ℚ)) :
    GapOK (max 30 (start_point + end_point))
      (streaming_crest_ceiling_algorithm thr start_point end_point samples).captured ∧
    GapOK (max 30 (start_point + end_point))
      (crest_ceiling_algorithm thr start_point end_point samples).captured := by
  constructor
  · exact gapOK_foldl_streaming thr start_point end_point samples ⟨[], []⟩
      (by intro a ha; simp at ha)
  · exact gapOK_foldl_crest thr start_point end_point samples ⟨[], []⟩
      (by intro a ha; simp at ha)

-- C1 witness: on a concrete two-spike stream, both positions 0 and 40 are
-- captured by the streaming pass and the theorem yields the concrete gap bound.
unseal Rat.add Rat.mul Rat.inv Rat.sub in
theorem gap_invariant_witness :
    ((0 : ℤ), HighlightedMoment.mk "0:00:00" 0) ∈
      (streaming_crest_ceiling_algorithm (-5) 15 15 [([0], 0), ([0], 40)]).captured ∧
    ((40 : ℤ), HighlightedMoment.mk "0:00:40" 0) ∈
      (streaming_crest_ceiling_algorithm (-5) 15 15 [([0], 0), ([0], 40)]).captured ∧
    max 30 ((15 : ℤ) + 15) ≤ |(0 : ℤ) - 40| := by
  refine ⟨by decide, by decide, ?_⟩
  exact (gap_invariant (-5) 15 15 [([0], 0), ([0], 40)]).1
    ((0 : ℤ), HighlightedMoment.mk "0:00:00" 0) (by decide)
    ((40 : ℤ), HighlightedMoment.mk "0:00:40" 0) (by decide) (by decide)

theorem streamingStep_captured_eq (thr : ℚ) (sp ep : ℤ) (st : DetectState)
    (data : List ℚ) (pos : ℚ) (hne : data.isEmpty = false) :
    (streamingStep thr sp ep st (data, pos)).captured =
      if thr ≤ pyListMax data ∧
         already_captured sp ep st.captured (pyInt pos) = false ∧
         (classify thr
           (pushWindow st.rolling_window ⟨pos, pyListMax data, pyListAvg data⟩)
           (pyListMax data)).isSome
      then add_highlight st.captured (pyInt pos) (pyListMax data)
      else st.captured := by
  unfold streamingStep classify
  simp only [hne, Bool.false_eq_true, if_false]
  by_cases h1 : thr ≤ pyListMax data <;>
    cases h2 : already_captured sp ep st.captured (pyInt pos) <;>
      split_ifs <;> simp_all

theorem crestStep_eq_streamingStep (thr : ℚ) (sp ep : ℤ) (st : DetectState)
    (data : List ℚ) (pos : ℚ) (hne : data.isEmpty = false) :
    crestStep thr sp ep st (data, pos) = streamingStep thr sp ep st (data, pos) := by
  unfold streamingStep crestStep
  have h : ¬((data, pos).1.isEmpty = true) := by simp [hne]
  rw [if_neg h]

theorem add_highlight_length (captured : List (ℤ × HighlightedMoment))
    (pos : ℤ) (db : ℚ) :
    (add_highlight captured pos db).length ≤ captured.length + 1 := by
  unfold add_highlight dictUpdate
  split <;> simp

theorem streamingStep_captured_length (thr : ℚ) (sp ep : ℤ) (st : DetectState)
    (sample : List ℚ × ℚ) :
    (streamingStep thr sp ep st sample).captured.length ≤ st.captured.length + 1 := by
  obtain ⟨data, pos⟩ := sample
  by_cases h : data.isEmpty = true
  · unfold streamingStep
    rw [if_pos (show ((data, pos).1.isEmpty = true) by simpa using h)]
    exact Nat.le_succ _
  · rw [streamingStep_captured_eq thr sp ep st data pos (by simpa using h)]
    split_ifs
    · exact add_highlight_length st.captured (pyInt pos) (pyListMax data)
    · exact Nat.le_succ _

/-- C3. Classification order and exclusivity: for a sample that passes the
threshold and gap checks, the tier decision follows the fixed elif order
sustained, then spike, then dynamic, the first match winning — the three
iff-characterizations below spell out exactly the short-circuit conditions —
and the step captures at most one highlight with exactly that one tier per
sample; the legacy crest step behaves identically on the nonempty data its
iterator supplies. -/
theorem classification_order (thr : ℚ) (w : List WindowEntry) (m : ℚ) :
    (classify thr w m = some Tier.sustained ↔ 3 ≤ sustainedCount thr w) ∧
    (classify thr w m = some Tier.spike ↔
      sustainedCount thr w < 3 ∧ thr + 3 ≤ m) ∧
    (classify thr w m = some Tier.dynamic ↔
      sustainedCount thr w < 3 ∧ m < thr + 3 ∧ 3 ≤ w.length ∧
        rollingAvg w + 6 ≤ m) ∧
    (∀ sp ep st data pos, data.isEmpty = false →
      (streamingStep thr sp ep st (data, pos)).captured =
        if thr ≤ pyListMax data ∧
           already_captured sp ep st.captured (pyInt pos) = false ∧
           (classify thr
             (pushWindow st.rolling_window ⟨pos, pyListMax data, pyListAvg data⟩)
             (pyListMax data)).isSome
        then add_highlight st.captured (pyInt pos) (pyListMax data)
        else st.captured) ∧
    (∀ sp ep st data pos, data.isEmpty = false →
      crestStep thr sp ep st (data, pos) = streamingStep thr sp ep st (data, pos)) ∧
    (∀ (sp ep : ℤ) (st : DetectState) (sample : List ℚ × ℚ),
      (streamingStep thr sp ep st sample).captured.length ≤ st.captured.length + 1) := by
  refine ⟨?_, ?_, ?_, ?_, ?_, ?_⟩
  · unfold classify
    split_ifs <;> simp_all
  · unfold classify
    split_ifs <;> simp_all
  · unfold classify
    split_ifs <;> simp_all
  · intro sp ep st data pos hne
    exact streamingStep_captured_eq thr sp ep st data pos hne
  · intro sp ep st data pos hne
    exact crestStep_eq_streamingStep thr sp ep st data pos hne
  · intro sp ep st sample
    exact streamingStep_captured_length thr sp ep st sample

-- C3 witness: at a concrete window and sample the spike characterization and
-- the at-most-one-capture bound are obtained from the theorem.
unseal Rat.add Rat.mul Rat.inv Rat.sub in
theorem classification_order_witness :
    classify (-5) [⟨0, 0, 0⟩] 0 = some Tier.spike ∧
    (streamingStep (-5) 15 15 ⟨[], []⟩ ([0], 0)).captured.length ≤
      ([] : List (ℤ × HighlightedMoment)).length + 1 := by
  constructor
  · exact (classification_order (-5) [⟨0, 0, 0⟩] 0).2.1.mpr ⟨by decide, by decide⟩
  · exact (classification_order (-5) [⟨0, 0, 0⟩] 0).2.2.2.2.2 15 15 ⟨[], []⟩ ([0], 0)

/-- Clip time range computed by OptimizedClipGenerator._generate_single_clip
(analyzer.py lines 399-400): start = max(0, int(position) - start_point),
end = int(position) + end_point, with no clamp against the media duration
(the generator is not even given the duration). The position argument is a
key of _captured_result, already an integer. -/
def clipRange (position start_point end_point : ℤ) : ℤ × ℤ :=
  (max 0 (position - start_point), position + end_point)

/-- Clip time range computed by AudioAnalysis.generate_from_highlight
(analyzer.py lines 629-643): start = position - start_point then clamped up
to 0, end = position + end_point then clamped down to int(duration) when it
exceeds the media duration. -/
def generate_from_highlight_range (position start_point end_point : ℤ)
    (duration : ℚ) : ℤ × ℤ :=
  ((if position - start_point < 0 then 0 else position - start_point),
   (if duration < ((position + end_point : ℤ) : ℚ) then pyInt duration
    else position + end_point))

/-- C2 counterexample: the claim says the range passed to the trimming
subprocess always satisfies end <= mediaDuration, but the parallel clip
generator used by generate_all_highlights performs no upper clamp: a
highlight at position 100 with 15 s padding on a 105 s video is passed the
range (85, 115) although 115 > 105. -/
theorem clipRange_no_upper_clamp :
    clipRange 100 15 15 = (85, 115) ∧ ¬ ((115 : ℚ) ≤ 105) := by
  constructor
  · decide
  · decide

/-- C2 amended. Clamping, as the code actually implements it: the optimized
parallel path yields 0 <= start and start < end whenever position >= 0 and
end_point >= 1, and a highlight at position 0 yields start = 0 — but its end
is position + end_point, never clamped to the media duration; only the
legacy generate_from_highlight path clamps both sides, giving
0 <= start < end <= duration under the stated bounds. -/
theorem clipRange_clamping (position start_point end_point : ℤ) (duration : ℚ)
    (hpos : 0 ≤ position) (hsp : 1 ≤ start_point) (hep : 1 ≤ end_point)
    (hlt : (position : ℚ) < duration) (hdur : 1 ≤ pyInt duration) :
    (0 ≤ (clipRange position start_point end_point).1 ∧
      (clipRange position start_point end_point).1 <
        (clipRange position start_point end_point).2) ∧
    (clipRange 0 start_point end_point).1 = 0 ∧
    (clipRange position start_point end_point).2 = position + end_point ∧
    (0 ≤ (generate_from_highlight_range position start_point end_point duration).1 ∧
      (generate_from_highlight_range position start_point end_point duration).1 <
        (generate_from_highlight_range position start_point end_point duration).2 ∧
      ((generate_from_highlight_range position start_point end_point duration).2 : ℚ)
        ≤ duration) := by
  have hdur0 : (0 : ℚ) ≤ duration := le_trans (by exact_mod_cast hpos) (le_of_lt hlt)
  have hfloor : pyInt duration = ⌊duration⌋ := by
    unfold pyInt
    rw [if_pos hdur0]
  have hposfloor : position ≤ ⌊duration⌋ := Int.le_floor.mpr (le_of_lt hlt)
  rw [hfloor] at hdur
  constructor
  · constructor
    · show (0 : ℤ) ≤ max 0 (position - start_point)
      exact le_max_left 0 _
    · show max 0 (position - start_point) < position + end_point
      rcases max_cases 0 (position - start_point) with ⟨h, h2⟩ | ⟨h, h2⟩ <;> omega
  constructor
  · show max 0 ((0 : ℤ) - start_point) = 0
    rcases max_cases 0 ((0 : ℤ) - start_point) with ⟨h, h2⟩ | ⟨h, h2⟩ <;> omega
  constructor
  · rfl
  constructor
  · show (0 : ℤ) ≤ if position - start_point < 0 then 0 else position - start_point
    split_ifs <;> omega
  constructor
  · show (if position - start_point < 0 then 0 else position - start_point) <
        (if duration < ((position + end_point : ℤ) : ℚ) then pyInt duration
         else position + end_point)
    rw [hfloor]
    split_ifs <;> omega
  · show (((if duration < ((position + end_point : ℤ) : ℚ) then pyInt duration
        else position + end_point) : ℤ) : ℚ) ≤ duration
    rw [hfloor]
    split_ifs with h
    · exact_mod_cast Int.floor_le duration
    · push_neg at h
      exact h

-- C2 amended witness: the concrete instance position 100, padding 15/15,
-- duration 105 discharges all hypotheses; the optimized range is (85, 115)
-- and the legacy clamped range is (85, 105).
unseal Rat.add Rat.mul Rat.inv Rat.sub in
theorem clipRange_clamping_witness :
    ((0 ≤ (clipRange 100 15 15).1 ∧ (clipRange 100 15 15).1 < (clipRange 100 15 15).2) ∧
      (clipRange 0 15 15).1 = 0 ∧
      (clipRange 100 15 15).2 = 100 + 15 ∧
      (0 ≤ (generate_from_highlight_range 100 15 15 105).1 ∧
        (generate_from_highlight_range 100 15 15 105).1 <
          (generate_from_highlight_range 100 15 15 105).2 ∧
        ((generate_from_highlight_range 100 15 15 105).2 : ℚ) ≤ 105)) ∧
    generate_from_highlight_range 100 15 15 105 = (85, 105) := by
  constructor
  · exact clipRange_clamping 100 15 15 105 (by decide) (by decide) (by decide)
      (by decide) (by decide)
  · decide

/-- SPLIT_FRAMES constant (processor.py line 22). -/
def SPLIT_FRAMES : ℕ := 1000

/-- A finite decibel value: floor is the exact -60.0 dB silence floor, and
logOf m stands for the real number 20*log10(sqrt m) = 10*log10 m, the
loudness of a segment with mean-square amplitude m > 0. Tagging by the
exactly representable mean square instead of applying the irrational
logarithm keeps the embedding executable and loses nothing: on positive
arguments m determines 20*log10(sqrt m) and conversely. -/
inductive Db where
  | floor : Db
  | logOf (meanSquare : ℚ) : Db
deriving DecidableEq

/-- Mean of the squares of a segment, the square of its RMS; on an empty
list the rational division by zero yields 0, and callers that need the
NaN behaviour of numpy guard emptiness via pyMeanSquare. -/
def meanSquare (seg : List ℚ) : ℚ :=
  (seg.map fun x => x ^ 2).sum / (seg.length : ℚ)

/-- np.mean(segment ** 2) as the legacy _into_decibels computes it, with no
emptiness guard: an empty segment gives NaN (none here), and NaN > 0 is
False in Python, which the caller's comparison respects. -/
def pyMeanSquare (seg : List ℚ) : Option ℚ :=
  if seg.isEmpty then none else some (meanSquare seg)

/-- StreamingAudioProcessor._into_decibels (processor.py lines 147-161):
empty segment -> -60.0 floor; rms > 0 -> 20*log10(rms); rms = 0 -> -60.0.
Note rms > 0 iff the mean square is > 0, so the guard is exact. -/
def StreamingAudioProcessor.into_decibels (segments : List (List ℚ)) : List Db :=
  segments.map fun segment =>
    if segment.isEmpty then Db.floor
    else if 0 < meanSquare segment then Db.logOf (meanSquare segment) else Db.floor

/-- AudioProcessor._into_decibels (processor.py lines 227-244): no emptiness
guard; rms = sqrt(np.mean(chunk**2)) is NaN for an empty chunk and NaN > 0
is False, so the -60.0 branch is taken; otherwise as in the streaming
variant. -/
def AudioProcessor.into_decibels (chunks : List (List ℚ)) : List Db :=
  chunks.map fun chunk =>
    match pyMeanSquare chunk with
    | none => Db.floor
    | some ms => if 0 < ms then Db.logOf ms else Db.floor

/-- Sizes of the n parts np.array_split assigns to a length-L array:
L % n parts of size L / n + 1 followed by the remaining parts of size
L / n. -/
def splitSizes (L n : ℕ) : List ℕ :=
  (List.range n).map fun i => if i < L % n then L / n + 1 else L / n

/-- Cut successive pieces of the given sizes off a list. -/
def takeSizes : List ℚ → List ℕ → List (List ℚ)
  | _, [] => []
  | l, s :: ss => l.take s :: takeSizes (l.drop s) ss

/-- np.array_split(l, n) (processor.py lines 137, 225, 280). -/
def array_split (l : List ℚ) (n : ℕ) : List (List ℚ) :=
  takeSizes l (splitSizes l.length n)

/-- The while loop of StreamingAudioProcessor.stream_chunks (processor.py
lines 93-120), in sample units: each iteration takes one chunk of
chunk_samples = 30 * sample_rate samples (the last one shorter) and yields
it with its offset in seconds; offsets advance by the 30 s chunk duration.
The structural fuel equals the number of remaining samples, which bounds
the iteration count whenever chunk_samples >= 1 (the source presupposes a
positive sample rate from the container metadata). -/
def stream_chunksAux (chunk_samples : ℕ) :
    ℕ → List ℚ → ℚ → List (List ℚ × ℚ)
  | _, [], _ => []
  | 0, _ :: _, _ => []
  | fuel + 1, x :: xs, offset =>
      ((x :: xs).take chunk_samples, offset) ::
        stream_chunksAux chunk_samples fuel ((x :: xs).drop chunk_samples)
          (offset + 30)

/-- StreamingAudioProcessor.stream_chunks for a whole audio buffer. -/
def stream_chunks (audio : List ℚ) (sample_rate : ℕ) : List (List ℚ × ℚ) :=
  stream_chunksAux (30 * sample_rate) audio.length audio 0

/-- StreamingAudioProcessor.decibel_iter (processor.py lines 130-145): per
chunk, split into SPLIT_FRAMES segments, convert every segment to decibels,
then yield one singleton decibel list per segment index i at timestamp
offset + (i * len(chunk) / len(segments)) / sample_rate, guarded by
len(decibels) > i as in the source. -/
def StreamingAudioProcessor.decibel_iter (audio : List ℚ) (sample_rate : ℕ) :
    List (List Db × ℚ) :=
  (stream_chunks audio sample_rate).flatMap fun c =>
    if c.1.isEmpty then []
    else
      let segments := array_split c.1 SPLIT_FRAMES
      let decibels := StreamingAudioProcessor.into_decibels segments
      segments.enum.filterMap fun p =>
        if p.1 < decibels.length then
          some ([decibels.getD p.1 Db.floor],
            c.2 + (p.1 : ℚ) * (c.1.length : ℚ) / (segments.length : ℚ) /
              (sample_rate : ℚ))
        else none

/-- The read loop of AudioProcessor.decibel_iter (processor.py lines
272-290 with _read and _seek, lines 203-214): read sample_rate frames, stop
when the read is empty, split into SPLIT_FRAMES chunks, convert, and yield
with current = _pos / sample_rate - 1 computed after the seek. Fuel equals
the remaining frame count, which bounds the iteration count (a zero sample
rate reads empty frames and stops at once, as in the source). -/
def AudioProcessor.decibel_iterAux (sample_rate : ℕ) :
    ℕ → List ℚ → ℕ → List (List Db × ℚ)
  | 0, _, _ => []
  | fuel + 1, rest, pos =>
      if (rest.take sample_rate).isEmpty then []
      else
        (AudioProcessor.into_decibels (array_split (rest.take sample_rate) SPLIT_FRAMES),
          ((pos + sample_rate : ℕ) : ℚ) / (sample_rate : ℚ) - 1) ::
          AudioProcessor.decibel_iterAux sample_rate fuel (rest.drop sample_rate)
            (pos + sample_rate)

/-- AudioProcessor.decibel_iter for a whole audio buffer, starting at
_pos = 0. -/
def AudioProcessor.decibel_iter (audio : List ℚ) (sample_rate : ℕ) :
    List (List Db × ℚ) :=
  AudioProcessor.decibel_iterAux sample_rate audio.length audio 0

-- C4 counterexample: the claim says the streaming and legacy decibel
-- iterators yield the same sequence for the same file, but on a one-sample
-- file at sample rate 1 the legacy iterator yields a single pair carrying a
-- 1000-value decibel list while the streaming iterator yields 1000 singleton
-- pairs, so the sequences differ already at their first elements.
set_option maxRecDepth 10000 in
theorem decibel_iter_counterexample :
    ((StreamingAudioProcessor.decibel_iter [1] 1).head?.map fun p => p.1.length)
        = some 1 ∧
    ((AudioProcessor.decibel_iter [1] 1).head?.map fun p => p.1.length)
        = some 1000 ∧
    StreamingAudioProcessor.decibel_iter [1] 1 ≠ AudioProcessor.decibel_iter [1] 1 := by
  have h1 : ((StreamingAudioProcessor.decibel_iter [1] 1).head?.map
      fun p => p.1.length) = some 1 := by decide
  have h2 : ((AudioProcessor.decibel_iter [1] 1).head?.map
      fun p => p.1.length) = some 1000 := by decide
  refine ⟨h1, h2, fun heq => ?_⟩
  rw [heq, h2] at h1
  cases h1

/-- C4 amended. Streaming/legacy equivalence holds for the loudness
conversion but not for the iterators: the two processors' per-segment
decibel conversions are numerically identical on every segment list —
including the -60.0 dB floor on silent and on empty segments, where the
legacy variant goes through numpy's NaN — but the sequences their
decibel_iter generators yield differ in shape (the counterexample above),
the legacy iterator emitting one 1000-value list per second and the
streaming iterator one singleton per thousandth of each 30 s chunk. -/
theorem into_decibels_agree (segments : List (List ℚ)) :
    StreamingAudioProcessor.into_decibels segments =
      AudioProcessor.into_decibels segments := by
  unfold StreamingAudioProcessor.into_decibels AudioProcessor.into_decibels
  induction segments with
  | nil => rfl
  | cons seg rest ih =>
    simp only [List.map_cons, List.cons.injEq]
    refine ⟨?_, ih⟩
    unfold pyMeanSquare
    by_cases h : seg.isEmpty <;> simp [h]

/-- C9. Silence floor: an empty or all-zero segment is assigned exactly the
-60.0 dB floor by both loudness conversions; a segment with positive RMS is
assigned 20*log10(rms), represented by its mean square tag; and every value
either conversion ever produces is the finite floor or the finite logarithm
of a positive mean square — never negative infinity and never NaN. -/
theorem silence_floor (segments : List (List ℚ)) (seg : List ℚ) :
    ((seg = [] ∨ ∀ x ∈ seg, x = 0) →
      StreamingAudioProcessor.into_decibels [seg] = [Db.floor] ∧
      AudioProcessor.into_decibels [seg] = [Db.floor]) ∧
    (0 < meanSquare seg →
      StreamingAudioProcessor.into_decibels [seg] = [Db.logOf (meanSquare seg)] ∧
      AudioProcessor.into_decibels [seg] = [Db.logOf (meanSquare seg)]) ∧
    (∀ d ∈ StreamingAudioProcessor.into_decibels segments,
      d = Db.floor ∨ ∃ m, 0 < m ∧ d = Db.logOf m) ∧
    (∀ d ∈ AudioProcessor.into_decibels segments,
      d = Db.floor ∨ ∃ m, 0 < m ∧ d = Db.logOf m) := by
  have hzero : (seg = [] ∨ ∀ x ∈ seg, x = 0) → meanSquare seg = 0 := by
    rintro (rfl | hall)
    · simp [meanSquare]
    · unfold meanSquare
      have : (seg.map fun x => x ^ 2).sum = 0 := by
        apply List.sum_eq_zero
        intro y hy
        obtain ⟨x, hx, rfl⟩ := List.mem_map.mp hy
        rw [hall x hx]
        ring
      rw [this, zero_div]
  refine ⟨?_, ?_, ?_, ?_⟩
  · intro h
    have hm := hzero h
    constructor
    · unfold StreamingAudioProcessor.into_decibels
      rcases h with rfl | hall
      · simp
      · simp only [List.map_cons, List.map_nil, List.cons.injEq, and_true]
        rw [hm]
        simp
    · unfold AudioProcessor.into_decibels pyMeanSquare
      rcases h with rfl | hall
      · simp
      · simp only [List.map_cons, List.map_nil, List.cons.injEq, and_true]
        by_cases he : seg.isEmpty <;> simp [he, hm]
  · intro hpos
    have hne : seg ≠ [] := by
      intro h
      rw [hzero (Or.inl h)] at hpos
      exact lt_irrefl 0 hpos
    have hne2 : seg.isEmpty = false := by
      cases seg
      · exact absurd rfl hne
      · rfl
    constructor
    · unfold StreamingAudioProcessor.into_decibels
      simp [hne, hne2, hpos]
    · unfold AudioProcessor.into_decibels pyMeanSquare
      simp [hne, hne2, hpos]
  · intro d hd
    unfold StreamingAudioProcessor.into_decibels at hd
    obtain ⟨s, hs, rfl⟩ := List.mem_map.mp hd
    by_cases he : s.isEmpty
    · simp [he]
    · by_cases hp : 0 < meanSquare s
      · refine Or.inr ⟨meanSquare s, hp, ?_⟩
        simp [he, hp]
      · simp [he, hp]
  · intro d hd
    unfold AudioProcessor.into_decibels pyMeanSquare at hd
    obtain ⟨s, hs, rfl⟩ := List.mem_map.mp hd
    by_cases he : s.isEmpty
    · simp [he]
    · by_cases hp : 0 < meanSquare s
      · refine Or.inr ⟨meanSquare s, hp, ?_⟩
        simp [he, hp]
      · simp [he, hp]

-- C9 witness: concrete segments discharge the hypotheses — the all-zero
-- segment [0, 0] maps to the -60 floor and the segment [1] to the positive
-- mean square 1.
unseal Rat.add Rat.mul Rat.inv Rat.sub in
theorem silence_floor_witness :
    (StreamingAudioProcessor.into_decibels [[0, 0]] = [Db.floor] ∧
      AudioProcessor.into_decibels [[0, 0]] = [Db.floor]) ∧
    (StreamingAudioProcessor.into_decibels [[1]] = [Db.logOf (meanSquare [1])] ∧
      AudioProcessor.into_decibels [[1]] = [Db.logOf (meanSquare [1])]) := by
  constructor
  · exact (silence_floor [] [0, 0]).1 (Or.inr (by decide))
  · exact (silence_floor [] [1]).2.1 (by decide)

/-- Terminal outcome of one submitted clip-generation future, as observed
by the as_completed loop of generate_clips_parallel (analyzer.py lines
342-360): the task returned True, returned False, the per-result wait
timed out, or the future raised. -/
inductive ClipOutcome where
  | ok
  | bad
  | timeout
  | exc
deriving DecidableEq

/-- One iteration of the counting loop of generate_clips_parallel
(analyzer.py lines 345-360): a True result increments completed_count and
everything else — False result, concurrent.futures.TimeoutError, any other
exception — increments failed_count. -/
def clipCount (c : ℕ × ℕ) (o : ClipOutcome) : ℕ × ℕ :=
  match o with
  | ClipOutcome.ok => (c.1 + 1, c.2)
  | _ => (c.1, c.2 + 1)

/-- OptimizedClipGenerator.generate_clips_parallel (analyzer.py lines
311-393) reduced to its returned counts: a fold of the counting loop over
the submitted futures in completion order, starting from (0, 0). -/
def generate_clips_parallel (outcomes : List ClipOutcome) : ℕ × ℕ :=
  outcomes.foldl clipCount (0, 0)

/-- StreamingAudioAnalysis.generate_all_highlights (analyzer.py lines
279-300; AudioAnalysis.generate_all_highlights at lines 599-623 is
identical in this respect): return (0, 0) outright when no highlights were
captured, otherwise the counts of the parallel generation with one
submitted task per captured highlight. -/
def generate_all_highlights (captured : List (ℤ × HighlightedMoment))
    (outcomes : List ClipOutcome) : ℕ × ℕ :=
  if captured.isEmpty then (0, 0)
  else generate_clips_parallel outcomes

theorem clipCount_foldl_sum (outcomes : List ClipOutcome) (c : ℕ × ℕ) :
    (outcomes.foldl clipCount c).1 + (outcomes.foldl clipCount c).2 =
      c.1 + c.2 + outcomes.length := by
  induction outcomes generalizing c with
  | nil => simp
  | cons o rest ih =>
    rw [List.foldl_cons, ih]
    cases o <;> simp [clipCount] <;> omega


/-- C5. Partial-failure accounting: with one submitted clip task per
captured highlight, each observed exactly once by the completion loop with
a success, failure, timeout or exception outcome, the returned pair of
counts always sums to the number of captured highlights; and with zero
captured highlights the function returns (0, 0) without running the
parallel generator at all. -/
theorem partial_failure_accounting (captured : List (ℤ × HighlightedMoment))
    (outcomes : List ClipOutcome) (h : outcomes.length = captured.length) :
    (generate_all_highlights captured outcomes).1 +
      (generate_all_highlights captured outcomes).2 = captured.length ∧
    (∀ os : List ClipOutcome, generate_all_highlights [] os = (0, 0)) := by
  constructor
  · unfold generate_all_highlights
    cases captured with
    | nil => simp
    | cons e rest =>
      simp only [List.isEmpty_cons, Bool.false_eq_true, if_false]
      unfold generate_clips_parallel
      rw [clipCount_foldl_sum]
      simpa using h
  · intro os
    rfl

-- C5 witness: one captured highlight whose only task times out yields the
-- counts (0, 1), summing to the single submitted highlight.
theorem partial_failure_accounting_witness :
    (generate_all_highlights [(0, ⟨"0:00:00", 0⟩)] [ClipOutcome.timeout]).1 +
      (generate_all_highlights [(0, ⟨"0:00:00", 0⟩)] [ClipOutcome.timeout]).2 = 1 ∧
    generate_all_highlights [] [] = (0, 0) := by
  have h := partial_failure_accounting [(0, ⟨"0:00:00", 0⟩)]
    [ClipOutcome.timeout] (by decide)
  exact ⟨h.1, h.2 []⟩

/-- Observable environment of one clip-generation task: whether the
subprocess call raised TimeoutExpired, whether some other exception was
raised along the way, the subprocess exit status, and existence and byte
size of the produced output file. -/
structure ClipEnv where
  timeoutExpired : Bool
  unexpectedError : Bool
  returncode : ℤ
  outputExists : Bool
  outputSize : ℕ
deriving DecidableEq

/-- Exceptions that can escape the try body of _generate_single_clip:
subprocess.TimeoutExpired, or any other Exception. -/
inductive PyExc where
  | timeoutExpired
  | exception
deriving DecidableEq

/-- Try body of OptimizedClipGenerator._generate_single_clip (analyzer.py
lines 398-440): raise on timeout or unexpected error; otherwise return True
exactly when the process exited 0 and the output file exists with size
greater than 1024 bytes, and False on a nonzero exit or an undersized or
missing file. -/
def generate_single_clip_body (env : ClipEnv) : Except PyExc Bool :=
  if env.timeoutExpired then Except.error PyExc.timeoutExpired
  else if env.unexpectedError then Except.error PyExc.exception
  else if env.returncode = 0 then
    Except.ok (env.outputExists && decide (1024 < env.outputSize))
  else Except.ok false

/-- OptimizedClipGenerator._generate_single_clip with its exception
handlers (analyzer.py lines 395-447): subprocess.TimeoutExpired and any
other Exception are caught and turned into the return value False. -/
def generate_single_clip (env : ClipEnv) : Except PyExc Bool :=
  match generate_single_clip_body env with
  | Except.ok b => Except.ok b
  | Except.error PyExc.timeoutExpired => Except.ok false
  | Except.error PyExc.exception => Except.ok false

/-- C6. Clip success criterion: a single clip task reports success (returns
True) exactly when no timeout and no unexpected exception occurred, the
trimming process exited with status zero, the output file exists and its
size strictly exceeds 1024 bytes; in particular a zero-exit run with a
missing file or a size of at most 1024 bytes reports failure, and a timeout
reports failure rather than raising. -/
theorem clip_success_criterion (env : ClipEnv) :
    (generate_single_clip env = Except.ok true ↔
      env.timeoutExpired = false ∧ env.unexpectedError = false ∧
      env.returncode = 0 ∧ env.outputExists = true ∧ 1024 < env.outputSize) ∧
    (env.timeoutExpired = true → generate_single_clip env = Except.ok false) ∧
    (env.returncode = 0 → env.outputSize ≤ 1024 →
      generate_single_clip env = Except.ok false ∨
        generate_single_clip env = Except.error PyExc.timeoutExpired) := by
  obtain ⟨t, u, rc, ex, sz⟩ := env
  unfold generate_single_clip generate_single_clip_body
  cases t <;> cases u <;> by_cases hrc : rc = 0 <;> cases ex <;> simp [hrc]

-- C6 witness: a zero-exit task whose output file exists with exactly 1024
-- bytes is reported as a failure, and a timed-out task is reported as a
-- failure.
theorem clip_success_criterion_witness :
    (generate_single_clip ⟨false, false, 0, true, 1024⟩ = Except.ok true ↔
      false = false ∧ false = false ∧ (0 : ℤ) = 0 ∧ true = true ∧ 1024 < 1024) ∧
    generate_single_clip ⟨true, false, 0, true, 4096⟩ = Except.ok false := by
  constructor
  · exact (clip_success_criterion ⟨false, false, 0, true, 1024⟩).1
  · exact (clip_success_criterion ⟨true, false, 0, true, 4096⟩).2.1 rfl

/-- C10. Single-clip task totality: for every environment the wrapped task
returns a boolean — it never lets an exception escape to the worker-pool
loop — and whenever the try body raises (timeout or unexpected exception)
the task returns False; a nonzero exit also returns False. -/
theorem single_clip_totality (env : ClipEnv) :
    (∃ b : Bool, generate_single_clip env = Except.ok b) ∧
    (∀ e : PyExc, generate_single_clip_body env = Except.error e →
      generate_single_clip env = Except.ok false) ∧
    (env.returncode ≠ 0 → env.timeoutExpired = false →
      env.unexpectedError = false → generate_single_clip env = Except.ok false) := by
  obtain ⟨t, u, rc, ex, sz⟩ := env
  unfold generate_single_clip generate_single_clip_body
  cases t <;> cases u <;> by_cases hrc : rc = 0 <;> simp [hrc]

-- C10 witness: an environment whose body raises an unexpected exception is
-- mapped by the wrapper to the boolean False, not to a propagated error.
theorem single_clip_totality_witness :
    generate_single_clip_body ⟨false, true, 0, true, 4096⟩ =
      Except.error PyExc.exception ∧
    generate_single_clip ⟨false, true, 0, true, 4096⟩ = Except.ok false := by
  refine ⟨rfl, ?_⟩
  exact (single_clip_totality ⟨false, true, 0, true, 4096⟩).2.1
    PyExc.exception rfl

/-- Successful result dict of BatchProcessor._process_single_video
(analyzer.py lines 148-154), reduced to its counted fields. -/
structure JobSuccess where
  highlights_found : ℕ
  highlights_generated : ℕ
  highlights_failed : ℕ
deriving DecidableEq

/-- A batch job as submitted to process_batch (analyzer.py lines 22-35),
identified by its job_id and carrying its video path. -/
structure BatchJob where
  job_id : String
  video_path : String
deriving DecidableEq

/-- Per-job entry of the results map of process_batch (analyzer.py lines
72-91): status completed with the pipeline result, or status failed with
the stringified error. -/
inductive JobResult where
  | completed (video_path : String) (result : JobSuccess)
  | failed (video_path : String) (error : String)
deriving DecidableEq

/-- The entry process_batch records for one finished job, depending on
whether its pipeline returned a result dict or raised (analyzer.py lines
72-91). -/
def jobEntry (outcome : BatchJob → Except String JobSuccess)
    (job : BatchJob) : JobResult :=
  match outcome job with
  | Except.ok r => JobResult.completed job.video_path r
  | Except.error msg => JobResult.failed job.video_path msg

/-- The as_completed loop of BatchProcessor.process_batch (analyzer.py
lines 66-99): fold over the jobs in completion order, incrementing
completed_count, recording the per-job entry in the results dict and
invoking the progress callback with
(completed_count, total, job_id, results[job_id]); callback invocations are
accumulated into a list returned alongside the results. -/
def process_batchAux (total : ℕ)
    (outcome : BatchJob → Except String JobSuccess) :
    List BatchJob → ℕ → List (String × JobResult) →
      List (ℕ × ℕ × String × JobResult) →
      List (String × JobResult) × List (ℕ × ℕ × String × JobResult)
  | [], _, results, callbackLog => (results, callbackLog)
  | job :: rest, completed_count, results, callbackLog =>
      process_batchAux total outcome rest (completed_count + 1)
        (dictUpdate results job.job_id (jobEntry outcome job))
        (callbackLog ++
          [(completed_count + 1, total, job.job_id, jobEntry outcome job)])

/-- BatchProcessor.process_batch (analyzer.py lines 53-102): all submitted
jobs are processed; completion_order is the order in which as_completed
yields their futures (a permutation of the submitted jobs), and outcome
gives each job's pipeline result or exception. -/
def process_batch (jobs completion_order : List BatchJob)
    (outcome : BatchJob → Except String JobSuccess) :
    List (String × JobResult) × List (ℕ × ℕ × String × JobResult) :=
  process_batchAux jobs.length outcome completion_order 0 [] []

/-- The callback-invocation list the loop produces: the k-th completed job
is reported as (k+1, total, its id, its recorded entry). -/
def expectedLog (total : ℕ) (outcome : BatchJob → Except String JobSuccess) :
    List BatchJob → ℕ → List (ℕ × ℕ × String × JobResult)
  | [], _ => []
  | job :: rest, completed_count =>
      (completed_count + 1, total, job.job_id, jobEntry outcome job) ::
        expectedLog total outcome rest (completed_count + 1)

theorem expectedLog_get? (total : ℕ)
    (outcome : BatchJob → Except String JobSuccess) (order : List BatchJob)
    (count k : ℕ) :
    (expectedLog total outcome order count).get? k =
      (order.get? k).map fun j =>
        (count + k + 1, total, j.job_id, jobEntry outcome j) := by
  induction order generalizing count k with
  | nil => simp [expectedLog]
  | cons j rest ih =>
    cases k with
    | zero => simp [expectedLog]
    | succ k =>
      rw [expectedLog]
      simp only [List.get?_cons_succ, ih (count + 1) k]
      have : count + 1 + k = count + (k + 1) := by omega
      rw [this]

theorem process_batchAux_spec (total : ℕ)
    (outcome : BatchJob → Except String JobSuccess) (order : List BatchJob)
    (count : ℕ) (results : List (String × JobResult))
    (log : List (ℕ × ℕ × String × JobResult))
    (hdisj : ∀ j ∈ order, ∀ e ∈ results, e.1 ≠ j.job_id)
    (hnodup : (order.map BatchJob.job_id).Nodup) :
    process_batchAux total outcome order count results log =
      (results ++ order.map fun j => (j.job_id, jobEntry outcome j),
       log ++ expectedLog total outcome order count) := by
  induction order generalizing count results log with
  | nil => simp [process_batchAux, expectedLog]
  | cons j rest ih =>
    rw [process_batchAux, expectedLog]
    have hupd : dictUpdate results j.job_id (jobEntry outcome j) =
        results ++ [(j.job_id, jobEntry outcome j)] := by
      unfold dictUpdate
      have : (results.any fun e => e.1 = j.job_id) = false := by
        rw [List.any_eq_false]
        intro e he
        simpa using hdisj j (List.mem_cons_self j rest) e he
      rw [this]
      simp
    rw [hupd, ih (count + 1) (results ++ [(j.job_id, jobEntry outcome j)])
      (log ++ [(count + 1, total, j.job_id, jobEntry outcome j)]) ?hd ?hn]
    · simp
    case hd =>
      intro j' hj' e he
      rcases List.mem_append.mp he with he' | he'
      · exact hdisj j' (List.mem_cons_of_mem j hj') e he'
      · simp only [List.mem_singleton] at he'
        subst he'
        simp only [List.map_cons, List.nodup_cons] at hnodup
        intro hcontra
        change j.job_id = j'.job_id at hcontra
        exact hnodup.1
          (by rw [hcontra]; exact List.mem_map_of_mem BatchJob.job_id hj')
    case hn =>
      simp only [List.map_cons, List.nodup_cons] at hnodup
      exact hnodup.2

/-- C7. Batch isolation and totality: with all submitted jobs completing in
some order and distinct job ids, the returned map holds exactly one entry
per submitted job id; a job whose pipeline raised is recorded as failed
with its error message while every other job keeps its own recorded entry;
and the progress callback fires exactly once per job, the k-th completion
with arguments (k+1, totalCount, jobId, recorded result). -/
theorem batch_isolation (jobs completion_order : List BatchJob)
    (outcome : BatchJob → Except String JobSuccess)
    (hperm : completion_order.Perm jobs)
    (hnodup : (jobs.map BatchJob.job_id).Nodup) :
    ((process_batch jobs completion_order outcome).1.map Prod.fst).Perm
        (jobs.map BatchJob.job_id) ∧
    ((process_batch jobs completion_order outcome).1.map Prod.fst).Nodup ∧
    (∀ job ∈ jobs, (job.job_id, jobEntry outcome job) ∈
        (process_batch jobs completion_order outcome).1) ∧
    (∀ job ∈ jobs, ∀ msg, outcome job = Except.error msg →
        (job.job_id, JobResult.failed job.video_path msg) ∈
          (process_batch jobs completion_order outcome).1) ∧
    (∀ k : ℕ, (process_batch jobs completion_order outcome).2.get? k =
      (completion_order.get? k).map fun j =>
        (k + 1, jobs.length, j.job_id, jobEntry outcome j)) := by
  have hnodup' : (completion_order.map BatchJob.job_id).Nodup :=
    ((hperm.map BatchJob.job_id).nodup_iff).mpr hnodup
  have hspec := process_batchAux_spec jobs.length outcome completion_order 0 [] []
    (by intro j hj e he; simp at he) hnodup'
  unfold process_batch
  rw [hspec]
  simp only [List.nil_append]
  refine ⟨?_, ?_, ?_, ?_, ?_⟩
  · rw [List.map_map]
    have : (Prod.fst ∘ fun j => (j.job_id, jobEntry outcome j)) = BatchJob.job_id := by
      funext j
      rfl
    rw [this]
    exact hperm.map BatchJob.job_id
  · rw [List.map_map]
    have : (Prod.fst ∘ fun j => (j.job_id, jobEntry outcome j)) = BatchJob.job_id := by
      funext j
      rfl
    rw [this]
    exact hnodup'
  · intro job hjob
    exact List.mem_map_of_mem _ (hperm.mem_iff.mpr hjob)
  · intro job hjob msg hmsg
    have : (job.job_id, jobEntry outcome job) ∈
        completion_order.map fun j => (j.job_id, jobEntry outcome j) :=
      List.mem_map_of_mem _ (hperm.mem_iff.mpr hjob)
    have hentry : jobEntry outcome job = JobResult.failed job.video_path msg := by
      unfold jobEntry
      rw [hmsg]
    rwa [hentry] at this
  · intro k
    rw [expectedLog_get? jobs.length outcome completion_order 0 k]
    simp

-- C7 witness: two jobs, the second of which raises, processed in reversed
-- completion order: both entries are present, the failing job is recorded
-- as failed with its message, and the two callback invocations carry
-- (1, 2, ...) and (2, 2, ...).
theorem batch_isolation_witness :
    (("a", JobResult.completed "va" ⟨1, 1, 0⟩) ∈
      (process_batch [⟨"a", "va"⟩, ⟨"b", "vb"⟩] [⟨"b", "vb"⟩, ⟨"a", "va"⟩]
        (fun j => if j.job_id = "a" then Except.ok ⟨1, 1, 0⟩
                  else Except.error "boom")).1) ∧
    (("b", JobResult.failed "vb" "boom") ∈
      (process_batch [⟨"a", "va"⟩, ⟨"b", "vb"⟩] [⟨"b", "vb"⟩, ⟨"a", "va"⟩]
        (fun j => if j.job_id = "a" then Except.ok ⟨1, 1, 0⟩
                  else Except.error "boom")).1) ∧
    ((process_batch [⟨"a", "va"⟩, ⟨"b", "vb"⟩] [⟨"b", "vb"⟩, ⟨"a", "va"⟩]
        (fun j => if j.job_id = "a" then Except.ok ⟨1, 1, 0⟩
                  else Except.error "boom")).2.get? 1 =
      some (2, 2, "a", JobResult.completed "va" ⟨1, 1, 0⟩)) := by
  have h := batch_isolation [⟨"a", "va"⟩, ⟨"b", "vb"⟩] [⟨"b", "vb"⟩, ⟨"a", "va"⟩]
    (fun j => if j.job_id = "a" then Except.ok ⟨1, 1, 0⟩
              else Except.error "boom")
    (List.Perm.swap _ _ _) (by decide)
  refine ⟨?_, ?_, ?_⟩
  · exact h.2.2.1 ⟨"a", "va"⟩ (by decide)
  · exact h.2.2.2.1 ⟨"b", "vb"⟩ (by decide) "boom" rfl
  · rw [h.2.2.2.2 1]
    rfl

/-- Decimal digit characters of a natural number, most significant first
(empty for 0), as Python renders integers; used to model the string keys
json.dump writes for the integer positions of _captured_result. -/
def natDigits : ℕ → List Char
  | 0 => []
  | n + 1 => natDigits ((n + 1) / 10) ++ [Char.ofNat (48 + (n + 1) % 10)]
decreasing_by exact Nat.div_lt_self (Nat.succ_pos n) (by norm_num)

/-- Python str() of a natural number. -/
def pyNatStr (n : ℕ) : String :=
  if n = 0 then "0" else String.mk (natDigits n)

/-- Python str() of an integer, the form json.dump gives the stringified
integer dict keys of the index file. -/
def pyIntStr (n : ℤ) : String :=
  if n < 0 then "-" ++ pyNatStr n.natAbs else pyNatStr n.natAbs

/-- Value of a decimal digit character, none for a non-digit. -/
def digitVal (c : Char) : Option ℕ :=
  if 48 ≤ c.toNat ∧ c.toNat ≤ 57 then some (c.toNat - 48) else none

/-- Accumulating decimal parse of a character list, none on any non-digit. -/
def parseNatAux : List Char → ℕ → Option ℕ
  | [], acc => some acc
  | c :: cs, acc =>
      match digitVal c with
      | some d => parseNatAux cs (acc * 10 + d)
      | none => none

/-- Decimal parse of a nonempty character list. -/
def parseNatList (l : List Char) : Option ℕ :=
  if l.isEmpty then none else parseNatAux l 0

/-- Python int() applied to the character list of a decimal string:
optional leading minus, then digits. -/
def parseIntList : List Char → Option ℤ
  | [] => none
  | c :: rest =>
      if c = '-' then (parseNatList rest).map fun n => -(n : ℤ)
      else (parseNatList (c :: rest)).map fun n => (n : ℤ)

/-- Python int() applied to a decimal string, as the loader recovers the
position from a string key. -/
def parseInt (s : String) : Option ℤ :=
  parseIntList s.data

theorem toNat_digitChar (d : ℕ) (hd : d < 10) :
    (Char.ofNat (48 + d)).toNat = 48 + d := by
  interval_cases d <;> decide

theorem digitVal_digit (d : ℕ) (hd : d < 10) :
    digitVal (Char.ofNat (48 + d)) = some d := by
  unfold digitVal
  rw [toNat_digitChar d hd, if_pos ⟨by omega, by omega⟩]
  congr 1
  omega

theorem natDigits_mem_toNat (n : ℕ) :
    ∀ c ∈ natDigits n, 48 ≤ c.toNat ∧ c.toNat ≤ 57 := by
  induction n using Nat.strong_induction_on with
  | _ n ih =>
    match n with
    | 0 =>
      intro c hc
      simp [natDigits] at hc
    | m + 1 =>
      intro c hc
      rw [natDigits] at hc
      rcases List.mem_append.mp hc with h | h
      · exact ih ((m + 1) / 10) (Nat.div_lt_self (Nat.succ_pos m) (by norm_num)) c h
      · simp only [List.mem_singleton] at h
        subst h
        have h10 : (m + 1) % 10 < 10 := Nat.mod_lt _ (by norm_num)
        rw [toNat_digitChar _ h10]
        omega

theorem natDigits_ne_nil (n : ℕ) (hn : n ≠ 0) : natDigits n ≠ [] := by
  match n with
  | 0 => exact absurd rfl hn
  | m + 1 =>
    rw [natDigits]
    simp

theorem parseNatAux_append (l1 l2 : List Char) (acc : ℕ) :
    parseNatAux (l1 ++ l2) acc =
      match parseNatAux l1 acc with
      | some acc2 => parseNatAux l2 acc2
      | none => none := by
  induction l1 generalizing acc with
  | nil => simp [parseNatAux]
  | cons c cs ih =>
    rw [List.cons_append, parseNatAux, parseNatAux]
    cases digitVal c with
    | none => rfl
    | some d =>
      simp only
      exact ih _

theorem parseNatAux_natDigits (n : ℕ) :
    ∀ acc, parseNatAux (natDigits n) acc =
      some (acc * 10 ^ (natDigits n).length + n) := by
  induction n using Nat.strong_induction_on with
  | _ n ih =>
    intro acc
    match n with
    | 0 => simp [natDigits, parseNatAux]
    | m + 1 =>
      rw [natDigits, parseNatAux_append,
        ih ((m + 1) / 10) (Nat.div_lt_self (Nat.succ_pos m) (by norm_num)) acc]
      have h10 : (m + 1) % 10 < 10 := Nat.mod_lt _ (by norm_num)
      simp only [parseNatAux, digitVal_digit _ h10]
      congr 1
      rw [List.length_append, List.length_singleton, pow_succ]
      have hqr : 10 * ((m + 1) / 10) + (m + 1) % 10 = m + 1 :=
        Nat.div_add_mod (m + 1) 10
      generalize (10 : ℕ) ^ (natDigits ((m + 1) / 10)).length = P
      generalize hq : (m + 1) / 10 = q at hqr
      generalize hr : (m + 1) % 10 = r at hqr
      have : acc * (P * 10) = acc * P * 10 := by ring
      omega

theorem parseNatList_natDigits (n : ℕ) (hn : n ≠ 0) :
    parseNatList (natDigits n) = some n := by
  unfold parseNatList
  have hne : (natDigits n).isEmpty = false := by
    cases h : natDigits n
    · exact absurd h (natDigits_ne_nil n hn)
    · rfl
  rw [hne]
  simp [parseNatAux_natDigits n 0]

theorem parseInt_pyIntStr (n : ℤ) : parseInt (pyIntStr n) = some n := by
  unfold parseInt pyIntStr pyNatStr
  by_cases hneg : n < 0
  · have habs : n.natAbs ≠ 0 := by
      intro h
      rw [Int.natAbs_eq_zero] at h
      omega
    rw [if_pos hneg, if_neg habs]
    have hdata : (("-" : String) ++ String.mk (natDigits n.natAbs)).data =
        '-' :: natDigits n.natAbs := rfl
    rw [hdata, parseIntList, if_pos rfl, parseNatList_natDigits n.natAbs habs]
    simp [abs_of_neg hneg]
  · rw [if_neg hneg]
    by_cases h0 : n.natAbs = 0
    · rw [if_pos h0]
      have : n = 0 := by omega
      subst this
      rfl
    · rw [if_neg h0]
      have hdata : (String.mk (natDigits n.natAbs)).data = natDigits n.natAbs := rfl
      rw [hdata]
      cases hds : natDigits n.natAbs with
      | nil => exact absurd hds (natDigits_ne_nil n.natAbs h0)
      | cons c cs =>
        have hc : c ∈ natDigits n.natAbs := by
          rw [hds]
          exact List.mem_cons_self c cs
        have hrange := natDigits_mem_toNat n.natAbs c hc
        have hnotminus : ¬(c = '-') := by
          intro h
          subst h
          revert hrange
          decide
        rw [parseIntList, if_neg hnotminus, ← hds, parseNatList_natDigits n.natAbs h0]
        simp
        omega

/-- Modelled from the spec: a JSON value as written to and re-read from the
per-run index file (spec section 6); object field order is preserved as
json.dump writes it and json.load reads it back. -/
inductive Json where
  | str (s : String) : Json
  | num (q : ℚ) : Json
  | obj (fields : List (String × Json)) : Json

/-- Modelled from the spec: common.json_encoder (common.py is not under
src/) renders a HighlightedMoment as the object of spec section 6, with its
position string and its decibel number. -/
def encodeHighlight (h : HighlightedMoment) : Json :=
  Json.obj [("position", Json.str h.position), ("decibel", Json.num h.decibel)]

/-- StreamingAudioAnalysis.export and AudioAnalysis.export (analyzer.py
lines 272-277 and 593-597): json.dump of _captured_result with
default=common.json_encoder stringifies each integer position key and
encodes each highlight value; the encoder itself is modelled from the spec
since common.py is not under src/. -/
def exportIndex (captured : List (ℤ × HighlightedMoment)) : Json :=
  Json.obj (captured.map fun e => (pyIntStr e.1, encodeHighlight e.2))

/-- Modelled from the spec: reading one highlight object back from the
index file. -/
def decodeHighlight : Json → Option HighlightedMoment
  | Json.obj [("position", Json.str p), ("decibel", Json.num d)] => some ⟨p, d⟩
  | _ => none

/-- Modelled from the spec: one entry of the re-loaded index — the integer
position recovered from the string key plus the decoded highlight. -/
def loadEntry (e : String × Json) : Option (ℤ × HighlightedMoment) :=
  match parseInt e.1, decodeHighlight e.2 with
  | some pos, some h => some (pos, h)
  | _, _ => none

/-- Modelled from the spec: re-loading the index file into a highlight set,
recovering each integer position from its string key (json.load yields
string keys). -/
def loadIndex : Json → Option (List (ℤ × HighlightedMoment))
  | Json.obj fields => fields.mapM loadEntry
  | _ => none

theorem decodeHighlight_encodeHighlight (h : HighlightedMoment) :
    decodeHighlight (encodeHighlight h) = some h := rfl

theorem loadEntry_encode (k : ℤ) (v : HighlightedMoment) :
    loadEntry (pyIntStr k, encodeHighlight v) = some (k, v) := by
  show (match parseInt (pyIntStr k), decodeHighlight (encodeHighlight v) with
    | some pos, some h => some (pos, h)
    | _, _ => none) = some (k, v)
  rw [parseInt_pyIntStr k, decodeHighlight_encodeHighlight v]

/-- C8. Index round-trip: serializing any captured highlight set to the
per-run index JSON and re-loading that JSON yields exactly the same
highlight set — the same integer positions recovered from the string keys
and the same decibel values (exact in this rational model, so certainly
within floating-point tolerance). -/
theorem index_roundtrip (captured : List (ℤ × HighlightedMoment)) :
    loadIndex (exportIndex captured) = some captured := by
  show (captured.map fun e => (pyIntStr e.1, encodeHighlight e.2)).mapM loadEntry =
    some captured
  induction captured with
  | nil => rfl
  | cons e rest ih =>
    rw [List.map_cons, List.mapM_cons, loadEntry_encode e.1 e.2]
    simp only [Option.bind_eq_bind, Option.some_bind]
    rw [ih]
    rfl

end Highlighter
